import Mathlib

/-!
Verification of the shogi engine API core (`shogi_express_api`).

The development shallowly embeds the TypeScript source:

* `usiProtocol.ts` — line classification (`parseLine`) and the analysis
  summary (`parseAnalysisResult`), including the JavaScript regular
  expressions it uses, modelled as leftmost-match scanners on `List Char`;
* `commandQueue.ts` — the serial FIFO `CommandQueue` as a labelled
  transition system;
* `engineProcess.ts` — the crash/restart bookkeeping (`handleCrash`),
  the `go`-command construction in `analyze`, the `stopSearch` token
  check, the idle-timer logic of `doSendAndCollect` and `doInfiniteGo`,
  the last two as deterministic runs over timed line traces;
* the raw-command route — its `stopPredicate` closure over `hasContent`.
-/

namespace ShogiApi

/-! ## Character-level helpers (JavaScript string semantics) -/

/-- JS `\w` word characters: ASCII letters, digits and underscore. -/
def isWordChar (c : Char) : Bool :=
  c.isAlphanum || c = '_'

/-- Whitespace as used by `trim` / `\s` on the ASCII protocol lines. -/
def isWs (c : Char) : Bool :=
  c = ' ' || c = '\t' || c = '\n' || c = '\r'

/-- JS `String.prototype.trim` on a char list. -/
def trimL (l : List Char) : List Char :=
  ((l.dropWhile isWs).reverse.dropWhile isWs).reverse

/-- Does `l` start with the literal `pre` (JS `startsWith`)? -/
def startsWithL (pre l : List Char) : Bool :=
  decide (l.take pre.length = pre)

/-- Strip literal prefix `pre` from `l`, if present. -/
def stripL (pre l : List Char) : Option (List Char) :=
  if startsWithL pre l then some (l.drop pre.length) else none

/-- Numeric value of a list of decimal digit characters. -/
def natOfDigits (ds : List Char) : Nat :=
  ds.foldl (fun a c => a * 10 + (c.toNat - '0'.toNat)) 0

/-- JS `split(/\s+/)`: pieces between maximal whitespace runs (may yield
empty pieces at the ends, and `[""]` on the empty string). -/
def wsSplit : List Char → List (List Char)
  | [] => [[]]
  | c :: rest =>
      let r := wsSplit rest
      if isWs c then
        match rest with
        | [] => [] :: r
        | d :: _ => if isWs d then r else [] :: r
      else
        match r with
        | t :: ts => (c :: t) :: ts
        | [] => [[c]]

/-! ## Leftmost-match scanners for the regexes of `parseLine`

`parseLine` uses `\bdepth (\d+)`, `\bscore cp (-?\d+)`,
`\bscore mate (-?\d+)` and `\bpv (.+)`.  Each pattern starts with a word
character, so the `\b` boundary holds exactly when the previous character
is absent or a non-word character.  `reScan try_ prev l` returns the value
of `try_` at the leftmost boundary position of `l` where it succeeds. -/

def reScan {α : Type} (try_ : List Char → Option α) :
    Option Char → List Char → Option α
  | _, [] => none
  | prev, c :: rest =>
      let boundary := match prev with
        | none => true
        | some p => !isWordChar p
      match if boundary then try_ (c :: rest) else none with
      | some v => some v
      | none => reScan try_ (some c) rest

/-- Body of `\bdepth (\d+)`: literal `"depth "` then at least one digit;
the capture is the maximal digit run. -/
def tryDepth (l : List Char) : Option Nat := do
  let r ← stripL "depth ".data l
  let ds := r.takeWhile Char.isDigit
  if ds.isEmpty then none else some (natOfDigits ds)

/-- Body of a `(-?\d+)` capture: optional minus sign, then at least one
digit; the capture is maximal. -/
def trySignedInt (r : List Char) : Option Int :=
  match r with
  | '-' :: rest =>
      let ds := rest.takeWhile Char.isDigit
      if ds.isEmpty then none else some (-(natOfDigits ds : Int))
  | _ =>
      let ds := r.takeWhile Char.isDigit
      if ds.isEmpty then none else some (natOfDigits ds : Int)

/-- Body of `\bscore cp (-?\d+)`. -/
def tryCp (l : List Char) : Option Int := do
  let r ← stripL "score cp ".data l
  trySignedInt r

/-- Body of `\bscore mate (-?\d+)`. -/
def tryMate (l : List Char) : Option Int := do
  let r ← stripL "score mate ".data l
  trySignedInt r

/-- Body of `\bpv (.+)`: literal `"pv "` then at least one character; the
greedy capture is the whole remainder of the line. -/
def tryPv (l : List Char) : Option (List Char) := do
  let r ← stripL "pv ".data l
  if r.isEmpty then none else some r

/-- `trimmed.match(/\bdepth (\d+)/)` followed by `parseInt`. -/
def extractDepth (l : List Char) : Option Nat :=
  reScan tryDepth none l

/-- `trimmed.match(/\bscore cp (-?\d+)/)` followed by `parseInt`. -/
def extractCp (l : List Char) : Option Int :=
  reScan tryCp none l

/-- `trimmed.match(/\bscore mate (-?\d+)/)` followed by `parseInt`. -/
def extractMate (l : List Char) : Option Int :=
  reScan tryMate none l

/-- `trimmed.match(/\bpv (.+)/)`, then `capture.trim().split(/\s+/)`. -/
def extractPv (l : List Char) : Option (List String) :=
  (reScan tryPv none l).map fun cap =>
    (wsSplit (trimL cap)).map (fun t => String.mk t)

/-! ## `parseLine` (usiProtocol.ts) -/

/-- The tagged line variants of `UsiLine` in `usiProtocol.ts`.  The
`info` payload mirrors the `UsiInfo` interface (raw text plus four
independently optional fields). -/
inductive UsiLine where
  | usiok : UsiLine
  | readyok : UsiLine
  | id (key value : String) : UsiLine
  | option (raw : String) : UsiLine
  | bestmove (move : String) (ponder : Option String) : UsiLine
  | info (raw : String) (depth : Option Nat) (score : Option Int)
      (mate : Option Int) (pv : Option (List String)) : UsiLine
  | raw (line : String) : UsiLine
deriving DecidableEq, Repr

/-- `bestmove` branch: `trimmed.split(/\s+/)`, move := `parts[1] ?? ''`,
ponder := the token after a literal `'ponder'` token, if any. -/
def bestmoveOf (trimmed : List Char) : UsiLine :=
  let parts := (wsSplit trimmed).map (fun t => String.mk t)
  let move := (parts.get? 1).getD ""
  let ponder := match parts.findIdx? (fun p => p = "ponder") with
    | some i => parts.get? (i + 1)
    | none => none
  .bestmove move ponder

/-- `id` branch: split the remainder at its first space into key/value;
with no space the branch falls through (the caller continues). -/
def idOf (rest : List Char) : Option UsiLine :=
  let key := rest.takeWhile (fun c => c ≠ ' ')
  let value := rest.dropWhile (fun c => c ≠ ' ')
  match value with
  | ' ' :: v => some (.id (String.mk key) (String.mk v))
  | _ => none

/-- `parseLine` on the already-trimmed char list. -/
def parseLineCore (t : List Char) : UsiLine :=
  if t = "usiok".data then .usiok
  else if t = "readyok".data then .readyok
  else match (if startsWithL "id ".data t then idOf (t.drop 3) else none) with
  | some res => res
  | none =>
    if startsWithL "option ".data t then .option (String.mk t)
    else if startsWithL "bestmove ".data t then bestmoveOf t
    else if startsWithL "info ".data t then
      .info (String.mk t) (extractDepth t) (extractCp t) (extractMate t)
        (extractPv t)
    else .raw (String.mk t)

/-- `parseLine(line)` from `usiProtocol.ts`. -/
def parseLine (line : String) : UsiLine :=
  parseLineCore (trimL line.data)

/-! ## `parseAnalysisResult` (usiProtocol.ts) -/

/-- The `MateInfo | NoMateInfo` union of the `AnalysisResult` type. -/
inductive MateField where
  | mateInfo (mate_length : Nat) (mate_moves : String) : MateField
  | noMate (score : Option Int) : MateField
deriving DecidableEq, Repr

/-- The `AnalysisResult` record of `usiProtocol.ts`. -/
structure AnalysisResult where
  bestmove : Option String
  ponder : Option String
  res : MateField
deriving DecidableEq, Repr

/-- Projection used by `.filter((l): l is UsiInfo => l.type === 'info')`. -/
def asInfo : UsiLine → Option (String × Option Nat × Option Int × Option Int × Option (List String))
  | .info raw d s m pv => some (raw, d, s, m, pv)
  | _ => none

/-- Projection used by `.find((l): l is UsiBestMove => l.type === 'bestmove')`. -/
def asBestmove : UsiLine → Option (String × Option String)
  | .bestmove m p => some (m, p)
  | _ => none

/-- JS `Array.prototype.join(' ')`. -/
def joinSpace : List String → String
  | [] => ""
  | [x] => x
  | x :: xs => x ++ " " ++ joinSpace xs

/-- The mate/score part of the summary, from a consulted info event:
mate takes priority when the event has a mate field. -/
def summaryOf : Option (String × Option Nat × Option Int × Option Int × Option (List String)) → MateField
  | some (_, _, _, some m, pv) => .mateInfo m.natAbs (joinSpace (pv.getD []))
  | some (_, _, s, none, _) => .noMate s
  | none => .noMate none

/-- `parseAnalysisResult(lines)` from `usiProtocol.ts`: parse every line,
consult the **last** info event (`.at(-1)`) for mate/score, and the
**first** best-move event for bestmove/ponder. -/
def parseAnalysisResult (lines : List String) : AnalysisResult :=
  { bestmove := ((lines.map parseLine).findSome? asBestmove).map Prod.fst
    ponder := ((lines.map parseLine).findSome? asBestmove).bind Prod.snd
    res := summaryOf ((lines.map parseLine).filterMap asInfo).getLast? }

/-- Modelled from the spec's words (for contrast with
`parseAnalysisResult`): consult the last info event **with a non-absent
mate or score field**, rather than the last info event outright. -/
def parseAnalysisResultSpec (lines : List String) : AnalysisResult :=
  { bestmove := ((lines.map parseLine).findSome? asBestmove).map Prod.fst
    ponder := ((lines.map parseLine).findSome? asBestmove).bind Prod.snd
    res := summaryOf (((lines.map parseLine).filterMap asInfo).filter
      (fun i => i.2.2.2.1.isSome || i.2.2.1.isSome)).getLast? }

/-! ## The `go` command of `analyze` (engineProcess.ts) -/

/-- The search command built inside `analyze`: `waittime === 0` short
circuits to `'go infinite'`; otherwise parts `movetime`/`depth`/`nodes`
are appended in that order and joined by single spaces. -/
def goCommand (waittime depth nodes : Option Nat) : String :=
  if waittime = some 0 then "go infinite"
  else
    let parts := ["go"]
      ++ (match waittime with
          | some w => ["movetime " ++ toString w]
          | none => [])
      ++ (match depth with
          | some d => ["depth " ++ toString d]
          | none => [])
      ++ (match nodes with
          | some n => ["nodes " ++ toString n]
          | none => [])
    joinSpace parts

/-! ## `stopSearch` and the active stop token (engineProcess.ts) -/

/-- Outcome of `stopSearch`: the two error codes, or a direct write of
the cancel command to the engine process. -/
inductive StopResult where
  | noSearch : StopResult
  | invalidToken : StopResult
  | wrote (cmd : String) : StopResult
deriving DecidableEq, Repr

/-- Commands written to the engine process by a `StopResult`. -/
def StopResult.writes : StopResult → List String
  | .wrote c => [c]
  | _ => []

/-- `stopSearch(token)`: JS truthiness of `!this.activeStopToken` treats
both `null` and the empty string as "no active search". -/
def stopSearch (activeStopToken : Option String) (token : String) : StopResult :=
  match activeStopToken with
  | none => .noSearch
  | some t =>
      if t = "" then .noSearch
      else if token ≠ t then .invalidToken
      else .wrote "stop"

/-- The guard `if (stopToken) this.activeStopToken = stopToken` in
`analyze`: a falsy (absent or empty) token leaves the slot unchanged. -/
def setActiveToken (cur : Option String) (stopToken : Option String) : Option String :=
  match stopToken with
  | some t => if t = "" then cur else some t
  | none => cur

/-! ## `CommandQueue` (commandQueue.ts)

The queue is modelled as a labelled transition system.  The state mirrors
the class fields `queue` (waiting wrapped tasks, FIFO) and `running`,
plus observations: `inflight` — the task bodies currently executing
(started by `next()` and not yet settled), `enqueued` / `started` — task
ids in enqueue / start order, and `settled` — the promise resolutions
`(id, success?)` in the order they were delivered to callers. -/

structure QState where
  queue : List Nat
  running : Bool
  inflight : List Nat
  enqueued : List Nat
  started : List Nat
  settled : List (Nat × Bool)
deriving DecidableEq, Repr

def QState.init : QState :=
  ⟨[], false, [], [], [], []⟩

/-- `next()`: if nothing is running and a task waits, shift it off the
queue, set `running`, and begin executing its body. -/
def qNext (s : QState) : QState :=
  if s.running then s
  else match s.queue with
  | [] => s
  | h :: t =>
      { s with queue := t, running := true,
               inflight := s.inflight ++ [h],
               started := s.started ++ [h] }

/-- The two externally visible events: an `enqueue` call, and the settling
(fulfilment or rejection) of the running task's body. -/
inductive QEvent where
  | enqueue (id : Nat) : QEvent
  | settle (id : Nat) (ok : Bool) : QEvent
deriving DecidableEq, Repr

/-- One step.  `enqueue` pushes the wrapped task and calls `next()`.
`settle` delivers the outcome to that task's own promise, then — the
`finally` block — clears `running` and calls `next()`.  A settle for a
task that is not executing cannot occur and is a no-op. -/
def qStep (s : QState) : QEvent → QState
  | .enqueue i => qNext { s with queue := s.queue ++ [i], enqueued := s.enqueued ++ [i] }
  | .settle i ok =>
      if s.inflight = [i] then
        qNext { s with inflight := [], running := false,
                       settled := s.settled ++ [(i, ok)] }
      else s

/-- Run the queue from the initial state over a list of events. -/
def qRun (evs : List QEvent) : QState :=
  evs.foldl qStep QState.init

/-- The reachable-state invariant of the queue: at most one body executes
at any instant, `running` tracks it exactly, tasks start in enqueue order
(`enqueued = started ++ queue`), and promises settle in start order
(`started = settled ++ inflight`). -/
def QInv (s : QState) : Prop :=
  s.inflight.length ≤ 1 ∧
  (s.running = true ↔ s.inflight ≠ []) ∧
  s.enqueued = s.started ++ s.queue ∧
  s.started = s.settled.map Prod.fst ++ s.inflight

/-! ## Crash handling (engineProcess.ts) -/

/-- `MAX_RETRIES`. -/
def MAX_RETRIES : Nat := 3

/-- `RETRY_WINDOW_MS` (3 minutes). -/
def RETRY_WINDOW_MS : Nat := 3 * 60 * 1000

/-- Supervisor state: the pruned crash-timestamp window, whether the
fatal signal has been emitted, and how many restart attempts have been
scheduled. -/
structure CrashState where
  window : List Nat
  fatal : Bool
  restarts : Nat
deriving DecidableEq, Repr

def CrashState.init : CrashState :=
  ⟨[], false, 0⟩

/-- `handleCrash()` at time `now`: prune entries older than the window,
append `now`; over budget emits the fatal signal and schedules nothing,
otherwise schedules one restart attempt.  After `fatal` no restart is
scheduled, so no further crash events occur (terminal state). -/
def handleCrash (s : CrashState) (now : Nat) : CrashState :=
  if s.fatal then s
  else
    let pruned := s.window.filter (fun t => now - t < RETRY_WINDOW_MS)
    let w := pruned ++ [now]
    if w.length > MAX_RETRIES then
      { window := w, fatal := true, restarts := s.restarts }
    else
      { window := w, fatal := false, restarts := s.restarts + 1 }

/-- Fold `handleCrash` over a sequence of crash times. -/
def runCrashes (times : List Nat) : CrashState :=
  times.foldl handleCrash CrashState.init

/-! ## `doInfiniteGo` (engineProcess.ts)

A deterministic run over a timed line trace.  Each event is a pair
`(gap, isBestmove)`: the time since the previous event (the command write
for the first event) and whether the line is a best-move line.  The
10-second idle timer is re-armed at the start and on every received line
while unresolved, so it fires inside a gap exactly when the gap exceeds
10 000 ms; the firing handler writes `'stop'` only when the `stopped`
flag is still clear. -/

structure IGState where
  stopped : Bool
  resolved : Bool
  stopWrites : Nat
deriving DecidableEq, Repr

def IGState.init : IGState :=
  ⟨false, false, 0⟩

/-- Process one line event: a timer firing during the gap (guarded by
`stopped`), then the line itself (a best-move line resolves the call and
detaches the listener; any other line re-arms the timer). -/
def igStep (s : IGState) (ev : Nat × Bool) : IGState :=
  if s.resolved then s
  else
    let s1 := if 10000 < ev.1 && !s.stopped
      then { s with stopped := true, stopWrites := s.stopWrites + 1 }
      else s
    if ev.2 then { s1 with resolved := true } else s1

def igRun (evs : List (Nat × Bool)) : IGState :=
  evs.foldl igStep IGState.init

/-- Total `'stop'` writes over a complete trace: the writes during the
trace, plus the one trailing idle firing that follows the last line when
the call never resolved (the timer is armed whenever the call is
unresolved, and `stopped` still guards the write). -/
def igTotalStops (evs : List (Nat × Bool)) : Nat :=
  let s := igRun evs
  s.stopWrites + (if !s.resolved && !s.stopped then 1 else 0)

/-! ## `doSendAndCollect` with the raw-command route predicate

The route's `stopPredicate` closes over `hasContent`; we thread that flag
explicitly.  The result is `(stop?, hasContent')`. -/

/-- `TERMINAL_TOKENS` of the raw-command route. -/
def TERMINAL_TOKENS : List String := ["usiok", "readyok", "bestmove"]

/-- The route's stop predicate on the trimmed line: stop on a terminal
token (exact or as first word); a blank line stops only once content has
been seen; any other line records that content has arrived. -/
def stopPredCore (hasContent : Bool) (trimmed : List Char) : Bool × Bool :=
  if TERMINAL_TOKENS.contains (String.mk trimmed) then (true, hasContent)
  else
    let firstWord := trimmed.takeWhile (fun c => c ≠ ' ')
    if firstWord ≠ [] && TERMINAL_TOKENS.contains (String.mk firstWord) then
      (true, hasContent)
    else if trimmed = [] then (hasContent, hasContent)
    else (false, true)

/-- The route's stop predicate on the raw line (`raw.trim()` first). -/
def stopPredStep (hasContent : Bool) (raw : String) : Bool × Bool :=
  stopPredCore hasContent (trimL raw.data)

/-- `doSendAndCollect` over a timed trace of lines `(gap, raw)`, with the
route predicate and idle timeout `idleMs`.  The idle timer is armed only
after a line has been received (and re-armed on every further line), so
it fires inside a gap exactly when a line was already seen and the gap
exceeds `idleMs`.  Returns the resolved line list, or `none` when the
trace ends with no line ever received (only the hard timeout remains). -/
def collectRun (idleMs : Nat) : Bool → Bool → List String →
    List (Nat × String) → Option (List String)
  | armed, _, acc, [] => if armed then some acc.reverse else none
  | armed, hasContent, acc, (gap, raw) :: rest =>
      if armed && decide (idleMs < gap) then some acc.reverse
      else
        let r := stopPredStep hasContent raw
        if r.1 then some ((raw :: acc).reverse)
        else collectRun idleMs true r.2 (raw :: acc) rest

/-- Entry point: timer unarmed, no content yet, nothing collected. -/
def collectOutcome (idleMs : Nat) (evs : List (Nat × String)) : Option (List String) :=
  collectRun idleMs false false [] evs

/-! ## Claim C3 — the nine-row search-command table -/

/-- Claim C3: for every combination of `waittime` (absent, `0`, or
`T > 0`), `depth` and `nodes`, the search command built by `analyze` is
exactly the literal of the nine-row table, and `waittime = 0` yields
`'go infinite'` with any supplied depth/nodes ignored. -/
theorem analyze_search_command_table (T D N : Nat) (hT : 0 < T) :
    goCommand none none none = "go" ∧
    goCommand none (some D) none = "go depth " ++ toString D ∧
    goCommand none none (some N) = "go nodes " ++ toString N ∧
    goCommand none (some D) (some N) =
      "go depth " ++ toString D ++ " nodes " ++ toString N ∧
    (∀ d n : Option Nat, goCommand (some 0) d n = "go infinite") ∧
    goCommand (some T) none none = "go movetime " ++ toString T ∧
    goCommand (some T) (some D) none =
      "go movetime " ++ toString T ++ " depth " ++ toString D ∧
    goCommand (some T) none (some N) =
      "go movetime " ++ toString T ++ " nodes " ++ toString N ∧
    goCommand (some T) (some D) (some N) =
      "go movetime " ++ toString T ++ " depth " ++ toString D ++
        " nodes " ++ toString N := by
  refine ⟨rfl, ?_, ?_, ?_, fun d n => by simp [goCommand], ?_, ?_, ?_, ?_⟩ <;>
    simp [goCommand, hT.ne', joinSpace, String.ext_iff, String.data_append]

/-- Witness for C3 at `T = 1000`, `D = 12`, `N = 500`. -/
theorem analyze_search_command_table_witness :
    goCommand (some 1000) (some 12) (some 500) =
      "go movetime 1000 depth 12 nodes 500" :=
  (analyze_search_command_table 1000 12 500 (by decide)).2.2.2.2.2.2.2.2

/-! ## Claim C5 — `stopSearch` token authentication -/

/-- Claim C5: `stopSearch` writes the cancel command iff a token is
active and equal to the supplied one; with no active token it fails with
the no-active-search error, with a different active token it fails with
the token-mismatch error, and neither failure writes to the process.
The `analyze` guard never records a falsy (empty/absent) token, so an
active token is always non-empty. -/
theorem stopSearch_token_check (t token : String) (hne : t ≠ "") :
    stopSearch none token = .noSearch ∧
    (stopSearch none token).writes = [] ∧
    (token ≠ t → stopSearch (some t) token = .invalidToken ∧
      (stopSearch (some t) token).writes = []) ∧
    (token = t → stopSearch (some t) token = .wrote "stop" ∧
      (stopSearch (some t) token).writes = ["stop"]) ∧
    (∀ cur, setActiveToken cur (some "") = cur ∧ setActiveToken cur none = cur) ∧
    (∀ a, (stopSearch a token).writes ≠ [] → a = some token) := by
  refine ⟨rfl, rfl, ?_, ?_, fun cur => ⟨by simp [setActiveToken], rfl⟩, ?_⟩
  · intro hneq
    simp [stopSearch, StopResult.writes, hne, hneq]
  · intro heq
    subst heq
    simp [stopSearch, StopResult.writes, hne]
  · intro a
    match a with
    | none => simp [stopSearch, StopResult.writes]
    | some u =>
        by_cases hu : u = "" <;> by_cases htk : token = u <;>
          simp [stopSearch, StopResult.writes, hu, htk]

/-- Witness for C5 at active token `"abc"`. -/
theorem stopSearch_token_check_witness :
    stopSearch (some "abc") "abc" = .wrote "stop" ∧
    stopSearch (some "abc") "xyz" = .invalidToken ∧
    stopSearch none "abc" = .noSearch := by
  have h := stopSearch_token_check "abc" "abc" (by decide)
  have h2 := stopSearch_token_check "abc" "xyz" (by decide)
  exact ⟨(h.2.2.2.1 rfl).1, (h2.2.2.1 (by decide)).1, h.1⟩

/-! ## Claim C9 — `parseLine` on info lines -/

/-- Counterexample to C9 as stated: the line `"info "` (trailing space
and nothing more) begins with the info prefix, yet `parseLine` trims it
to `"info"` and classifies it as unclassified-raw, not as an info
event. -/
theorem parseLine_info_space_counterexample :
    parseLine "info " = .raw "info" := by decide

/-- Claim C9 (amended: lines whose **trimmed** text begins with the info
prefix): the info fields are extracted independently by the four
scanners, and on `'info depth 18 score cp 42 pv 2g2f 8c8d'` they yield
depth 18, score 42, no mate, pv `["2g2f", "8c8d"]`; a marker hidden in a
longer word (e.g. `seldepth`) is not matched, and each field is absent
when its marker is absent. -/
theorem parseLine_info_extraction (s : String) (rest : List Char)
    (h : trimL s.data = "info ".data ++ rest) :
    parseLine s = .info (String.mk ("info ".data ++ rest))
      (extractDepth ("info ".data ++ rest)) (extractCp ("info ".data ++ rest))
      (extractMate ("info ".data ++ rest)) (extractPv ("info ".data ++ rest)) ∧
    parseLine "info depth 18 score cp 42 pv 2g2f 8c8d" =
      .info "info depth 18 score cp 42 pv 2g2f 8c8d"
        (some 18) (some 42) none (some ["2g2f", "8c8d"]) ∧
    parseLine "info score mate -2" =
      .info "info score mate -2" none none (some (-2)) none ∧
    parseLine "info seldepth 7" = .info "info seldepth 7" none none none none ∧
    parseLine "info depth 3 nodes 100" =
      .info "info depth 3 nodes 100" (some 3) none none none := by
  refine ⟨?_, by decide, by decide, by decide, by decide⟩
  rw [parseLine, h]
  rfl

/-- Witness for C9 at the claim's example line. -/
theorem parseLine_info_extraction_witness :
    parseLine "info depth 18 score cp 42 pv 2g2f 8c8d" =
      .info "info depth 18 score cp 42 pv 2g2f 8c8d"
        (some 18) (some 42) none (some ["2g2f", "8c8d"]) :=
  (parseLine_info_extraction "info depth 18 score cp 42 pv 2g2f 8c8d"
    "depth 18 score cp 42 pv 2g2f 8c8d".data (by decide)).1.trans (by decide)

/-! ## Claim C10 — `parseLine` on best-move lines -/

/-- Counterexample to C10 as stated: the line `"bestmove "` begins with
the best-move prefix and has no token after it, but `parseLine` trims it
to `"bestmove"` and returns an unclassified-raw event — not a best-move
event with an empty move field. -/
theorem parseLine_bestmove_counterexample :
    parseLine "bestmove " = .raw "bestmove" := by decide

/-- Claim C10 (amended: lines whose **trimmed** text begins with the
best-move prefix): `parseLine` totally returns a best-move event via the
split/index rules, and when the literal `'ponder'` marker is the final
token the ponder field is absent rather than an out-of-range access;
lines with nothing after `'bestmove'` trim to `"bestmove"` and classify
as unclassified-raw. -/
theorem parseLine_bestmove_total (s : String) (rest : List Char)
    (h : trimL s.data = "bestmove ".data ++ rest) :
    parseLine s = bestmoveOf ("bestmove ".data ++ rest) ∧
    parseLine "bestmove 7g7f ponder" = .bestmove "7g7f" none ∧
    parseLine "bestmove resign" = .bestmove "resign" none ∧
    parseLine "bestmove 7g7f ponder 3c3d" = .bestmove "7g7f" (some "3c3d") := by
  refine ⟨?_, by decide, by decide, by decide⟩
  rw [parseLine, h]
  rfl

/-- Witness for C10 at `"bestmove 2g2f"`. -/
theorem parseLine_bestmove_total_witness :
    parseLine "bestmove 2g2f" = .bestmove "2g2f" none :=
  (parseLine_bestmove_total "bestmove 2g2f" "2g2f".data (by decide)).1.trans
    (by decide)

/-! ## Claim C4 — which info event `parseAnalysisResult` consults -/

/-- Counterexample to C4 as stated: on
`["info score cp 42", "info depth 30"]` the last info event **with a
score or mate field** is the first line (score 42), but the code consults
the last info event outright (the second line, which has neither field)
and reports `score = null`.  `parseAnalysisResultSpec`, modelled from the
spec's words, differs from the code here. -/
theorem parseAnalysisResult_lastinfo_counterexample :
    parseAnalysisResult ["info score cp 42", "info depth 30"] =
      ⟨none, none, .noMate none⟩ ∧
    parseAnalysisResultSpec ["info score cp 42", "info depth 30"] =
      ⟨none, none, .noMate (some 42)⟩ := by
  exact ⟨by decide, by decide⟩

/-- Claim C4 (amended: the consulted event is the **last info event
outright**, whether or not it carries a mate or score field): if that
event has a mate distance `d`, the result is mate with magnitude `|d|`
and the pv joined by single spaces (empty when absent); otherwise no-mate
with that event's centipawn score, or none when it has none or when no
info event exists.  Best move and ponder come from the first best-move
event. -/
theorem parseAnalysisResult_consults_last_info (lines : List String) :
    (parseAnalysisResult lines).bestmove =
      ((lines.map parseLine).findSome? asBestmove).map Prod.fst ∧
    (parseAnalysisResult lines).ponder =
      ((lines.map parseLine).findSome? asBestmove).bind Prod.snd ∧
    (∀ r d sc pv, ((lines.map parseLine).filterMap asInfo).getLast? =
      some (r, d, sc, none, pv) → (parseAnalysisResult lines).res = .noMate sc) ∧
    (∀ r d sc m pv, ((lines.map parseLine).filterMap asInfo).getLast? =
      some (r, d, sc, some m, pv) → (parseAnalysisResult lines).res =
        .mateInfo m.natAbs (joinSpace (pv.getD []))) ∧
    (((lines.map parseLine).filterMap asInfo).getLast? = none →
      (parseAnalysisResult lines).res = .noMate none) ∧
    parseAnalysisResult
        ["info depth 5 score mate -3 pv G*5b 5a4a", "bestmove G*5b ponder 5a4a"] =
      ⟨some "G*5b", some "5a4a", .mateInfo 3 "G*5b 5a4a"⟩ ∧
    parseAnalysisResult [] = ⟨none, none, .noMate none⟩ ∧
    parseAnalysisResult ["info depth 3 score mate 2"] =
      ⟨none, none, .mateInfo 2 ""⟩ := by
  refine ⟨rfl, rfl, ?_, ?_, ?_, by decide, by decide, by decide⟩
  · intro r d sc pv hli
    show summaryOf _ = _
    rw [hli]
    rfl
  · intro r d sc m pv hli
    show summaryOf _ = _
    rw [hli]
    rfl
  · intro hli
    show summaryOf _ = _
    rw [hli]
    rfl


/-! ## Claim C1 — queue exclusivity and FIFO order -/

theorem qInv_init : QInv QState.init :=
  ⟨by simp [QState.init], by simp [QState.init], rfl, rfl⟩

theorem qInv_next {s : QState} (h : QInv s) : QInv (qNext s) := by
  obtain ⟨h1, h2, h3, h4⟩ := h
  unfold qNext
  split
  · exact ⟨h1, h2, h3, h4⟩
  next hr =>
    split
    · exact ⟨h1, h2, h3, h4⟩
    next hd tl hq =>
      have hin : s.inflight = [] := by
        rcases hmt : s.inflight with _ | ⟨a, l⟩
        · rfl
        · exact absurd (h2.mpr (by simp [hmt])) hr
      refine ⟨by simp [hin], by simp, ?_, ?_⟩
      · simp [h3, hq]
      · simp [h4, hin]

theorem qInv_step {s : QState} (h : QInv s) (e : QEvent) : QInv (qStep s e) := by
  obtain ⟨h1, h2, h3, h4⟩ := h
  cases e with
  | enqueue i =>
      apply qInv_next
      exact ⟨h1, h2, by simp [h3], h4⟩
  | settle i ok =>
      by_cases hin : s.inflight = [i]
      · have hstep : qStep s (.settle i ok) =
            qNext { s with inflight := [], running := false,
                           settled := s.settled ++ [(i, ok)] } := by
          simp [qStep, hin]
        rw [hstep]
        apply qInv_next
        refine ⟨by simp, by simp, h3, ?_⟩
        show s.started = (s.settled ++ [(i, ok)]).map Prod.fst ++ []
        simp only [List.map_append, List.append_nil, List.map_cons, List.map_nil]
        rw [h4, hin]
      · have hstep : qStep s (.settle i ok) = s := by
          simp [qStep, hin]
        rw [hstep]
        exact ⟨h1, h2, h3, h4⟩

theorem qInv_run (evs : List QEvent) : QInv (qRun evs) := by
  suffices h : ∀ s, QInv s → QInv (evs.foldl qStep s) from h _ qInv_init
  induction evs with
  | nil => exact fun s hs => hs
  | cons e t ih => exact fun s hs => ih _ (qInv_step hs e)

/-- Claim C1: in every reachable state of the `CommandQueue` transition
system, at most one task body is executing (`inflight.length ≤ 1`, with
the `running` flag tracking it exactly), task bodies start in enqueue
order and the waiting queue holds exactly the not-yet-started suffix
(`enqueued = started ++ queue`), and callers' promises settle in start
order (`started = settled ++ inflight`), so settle order is a prefix of
enqueue order. -/
theorem command_queue_exclusive_fifo (evs : List QEvent) :
    (qRun evs).inflight.length ≤ 1 ∧
    ((qRun evs).running = true ↔ (qRun evs).inflight ≠ []) ∧
    (qRun evs).enqueued = (qRun evs).started ++ (qRun evs).queue ∧
    (qRun evs).started = (qRun evs).settled.map Prod.fst ++ (qRun evs).inflight ∧
    (qRun evs).settled.map Prod.fst ++ (qRun evs).inflight ++ (qRun evs).queue =
      (qRun evs).enqueued := by
  obtain ⟨h1, h2, h3, h4⟩ := qInv_run evs
  exact ⟨h1, h2, h3, h4, by rw [h3, h4, List.append_assoc]⟩

/-! ## Claim C7 — a task failure is local and does not block the queue -/

/-- Claim C7: when the running task `i` settles — in particular with a
failure — the outcome is appended only to `i`'s own promise record, and
the next waiting task `hd` starts in the very same step, with the rest of
the queue intact. -/
theorem task_failure_isolated (s : QState) (i hd : Nat) (tl : List Nat)
    (hin : s.inflight = [i]) (hq : s.queue = hd :: tl) :
    ∀ ok, qStep s (.settle i ok) =
      { queue := tl, running := true, inflight := [hd],
        enqueued := s.enqueued, started := s.started ++ [hd],
        settled := s.settled ++ [(i, ok)] } := by
  intro ok
  simp [qStep, hin, qNext, hq]

/-- Witness for C7: after two enqueues, the first task fails and the
second starts immediately in the same step. -/
theorem task_failure_isolated_witness :
    qStep (qRun [.enqueue 0, .enqueue 1]) (.settle 0 false) =
      { queue := [], running := true, inflight := [1],
        enqueued := (qRun [.enqueue 0, .enqueue 1]).enqueued,
        started := (qRun [.enqueue 0, .enqueue 1]).started ++ [1],
        settled := (qRun [.enqueue 0, .enqueue 1]).settled ++ [(0, false)] } :=
  task_failure_isolated (qRun [.enqueue 0, .enqueue 1]) 0 1 []
    (by decide) (by decide) false

/-! ## Claim C2 — bounded restarts in a rolling window -/

/-- Fatal-or-within-budget invariant of the crash window. -/
def CrashInv (s : CrashState) : Prop :=
  s.fatal = true ∨ s.window.length ≤ MAX_RETRIES

theorem crashInv_step {s : CrashState} (h : CrashInv s) (now : Nat) :
    CrashInv (handleCrash s now) := by
  by_cases hf : s.fatal
  · simpa [handleCrash, hf] using h
  · rcases h with h | h
    · exact absurd h hf
    · by_cases hw : MAX_RETRIES <
          (s.window.filter (fun t => now - t < RETRY_WINDOW_MS)).length + 1
      · left
        simp [handleCrash, hf, hw]
      · right
        simp only [handleCrash, hf, Bool.false_eq_true, if_false]
        simp only [List.length_append, List.length_cons, List.length_nil,
          gt_iff_lt, if_neg hw]
        omega

theorem crashInv_run (times : List Nat) : CrashInv (runCrashes times) := by
  suffices h : ∀ s, CrashInv s → CrashInv (times.foldl handleCrash s) from
    h _ (Or.inr (by simp [CrashState.init]))
  induction times with
  | nil => exact fun s hs => hs
  | cons x t ih => exact fun s hs => ih _ (crashInv_step hs x)

/-- Claim C2: over any sequence of crash times, the pruned crash window
never exceeds 3 entries unless the session has gone fatal; a crash that
would make it exceed 3 sets the fatal flag and schedules no restart
attempt (while every non-fatal crash schedules exactly one); once fatal,
no crash handling happens at all.  The fatal transition fires exactly
when the pruned window plus the new crash exceeds 3 entries. -/
theorem crash_window_budget (s : CrashState) (now : Nat) (times : List Nat)
    (hs : s.fatal = false) :
    ((runCrashes times).fatal = false →
      (runCrashes times).window.length ≤ MAX_RETRIES) ∧
    ((handleCrash s now).fatal = true →
      (handleCrash s now).restarts = s.restarts) ∧
    ((handleCrash s now).fatal = false →
      (handleCrash s now).restarts = s.restarts + 1) ∧
    (∀ u : CrashState, u.fatal = true → handleCrash u now = u) ∧
    ((handleCrash s now).fatal = true ↔
      (s.window.filter (fun t => now - t < RETRY_WINDOW_MS)).length + 1 >
        MAX_RETRIES) := by
  have hw := Classical.em (MAX_RETRIES <
    (s.window.filter (fun t => now - t < RETRY_WINDOW_MS)).length + 1)
  refine ⟨?_, ?_, ?_, ?_, ?_⟩
  · intro hnf
    rcases crashInv_run times with h | h
    · rw [h] at hnf
      exact absurd hnf (by simp)
    · exact h
  · intro hft
    rcases hw with hw | hw
    · simp [handleCrash, hs, hw]
    · simp [handleCrash, hs, hw] at hft
  · intro hnf
    rcases hw with hw | hw
    · simp [handleCrash, hs, hw] at hnf
    · simp [handleCrash, hs, hw]
  · intro u hu
    simp [handleCrash, hu]
  · rcases hw with hw | hw <;> simp [handleCrash, hs, hw]

/-- Witness for C2: three crashes restart (window length 3), the fourth
crash inside the window goes fatal with no further restart. -/
theorem crash_window_budget_witness :
    (runCrashes [0, 1, 2]).window.length ≤ MAX_RETRIES ∧
    (handleCrash (runCrashes [0, 1, 2]) 3).fatal = true ∧
    (handleCrash (runCrashes [0, 1, 2]) 3).restarts =
      (runCrashes [0, 1, 2]).restarts := by
  have h := crash_window_budget (runCrashes [0, 1, 2]) 3 [0, 1, 2] (by decide)
  exact ⟨h.1 (by decide), by decide, h.2.1 (by decide)⟩

/-! ## Claim C6 — unbounded search: one stop write, resolve on bestmove -/

/-- The stop command is written at most once: the count always equals the
`stopped` flag. -/
def IGInv (s : IGState) : Prop :=
  s.stopWrites = (if s.stopped then 1 else 0)

theorem igInv_step {s : IGState} (h : IGInv s) (ev : Nat × Bool) :
    IGInv (igStep s ev) := by
  unfold igStep
  by_cases hr : s.resolved
  · simpa [hr] using h
  · unfold IGInv at h ⊢
    by_cases hcond : 10000 < ev.1 ∧ s.stopped = false
    · have h0 : s.stopWrites = 0 := by simpa [hcond.2] using h
      rcases hb : ev.2 <;> simp [hr, hb, hcond, h0]
    · rcases hb : ev.2 <;> simp [hr, hb, hcond, h]

theorem igInv_run (evs : List (Nat × Bool)) : IGInv (igRun evs) := by
  suffices h : ∀ s, IGInv s → IGInv (evs.foldl igStep s) from h _ rfl
  induction evs with
  | nil => exact fun s hs => hs
  | cons e t ih => exact fun s hs => ih _ (igInv_step hs e)

theorem igStep_resolved (s : IGState) (ev : Nat × Bool) :
    (igStep s ev).resolved = (s.resolved || ev.2) := by
  unfold igStep
  by_cases hr : s.resolved
  · simp [hr]
  · rcases hb : ev.2 <;> by_cases hcond : 10000 < ev.1 ∧ s.stopped = false <;>
      simp [hr, hb, hcond]

theorem igRun_resolved_aux (evs : List (Nat × Bool)) :
    ∀ s : IGState, (evs.foldl igStep s).resolved =
      (s.resolved || evs.any (fun e => e.2)) := by
  induction evs with
  | nil => intro s; simp
  | cons e t ih =>
      intro s
      simp only [List.foldl_cons, List.any_cons]
      rw [ih, igStep_resolved, Bool.or_assoc]

/-- Claim C6: over any timed trace of an unbounded search, the cancel
command is written at most once in total — even counting the trailing
idle firing after the last line — the call resolves exactly when some
best-move line occurs, and on the concrete trace with two silent periods
followed by a best-move line exactly one stop is written and the call
still resolves. -/
theorem infinite_go_single_stop (evs : List (Nat × Bool)) :
    igTotalStops evs ≤ 1 ∧
    (igRun evs).resolved = evs.any (fun e => e.2) ∧
    igRun [(0, false), (20000, false), (20000, false), (0, true)] =
      ⟨true, true, 1⟩ ∧
    igTotalStops [(0, false), (20000, false), (20000, false), (0, true)] = 1 ∧
    igTotalStops [(0, false), (20000, false)] = 1 := by
  refine ⟨?_, ?_, by decide, by decide, by decide⟩
  · have h := igInv_run evs
    unfold IGInv at h
    unfold igTotalStops
    rcases hst : (igRun evs).stopped <;>
      rcases hrv : (igRun evs).resolved <;>
      simp_all
  · have h := igRun_resolved_aux evs IGState.init
    simpa [igRun, IGState.init] using h

/-! ## Claim C8 — blank lines in `sendAndCollect` -/

/-- Counterexample to C8 as stated: with the 500 ms idle timeout of the
raw-command route, a leading blank line at time 0 followed by silence
**does** arm the idle timer — `doSendAndCollect` re-arms it on every
received line, blank or not — so the collection resolves with just the
blank line and the non-blank line arriving at 600 ms is never collected,
contradicting "the idle clock runs from the first non-blank line
seen". -/
theorem collect_leading_blank_counterexample :
    collectOutcome 500 [(0, ""), (600, "foo")] = some [""] := by decide

/-- Claim C8 (amended): a blank line is a stop signal only once a
non-blank line has been collected (`stopPredStep` returns the incoming
`hasContent` flag on blank lines, and a leading blank does not set it),
but every received line — including a leading blank — arms/resets the
idle timer, so a gap larger than the idle timeout after a leading blank
line resolves the collection there. -/
theorem collect_blank_line_handling (raw l : String) (g gap : Nat)
    (hblank : trimL raw.data = []) (hgap : 500 < gap) :
    stopPredStep false raw = (false, false) ∧
    stopPredStep true raw = (true, true) ∧
    (∀ hc : Bool, (stopPredStep hc raw).1 = hc) ∧
    stopPredStep false "id name X" = (false, true) ∧
    collectOutcome 500 [(g, raw), (gap, l)] = some [raw] := by
  have hpred : ∀ hc : Bool, stopPredStep hc raw = (hc, hc) := by
    intro hc
    rw [stopPredStep, hblank]
    rcases hc <;> decide
  refine ⟨hpred false, hpred true, fun hc => by rw [hpred hc], by decide, ?_⟩
  simp [collectOutcome, collectRun, hpred false, hgap]

/-- Witness for C8 at a concrete blank-then-silence trace. -/
theorem collect_blank_line_handling_witness :
    collectOutcome 500 [(0, ""), (501, "ok")] = some [""] :=
  (collect_blank_line_handling "" "ok" 0 501 (by decide) (by decide)).2.2.2.2

end ShogiApi
